import Mathlib

/-!
Verification development for the simple-ai-provenance engine.

The SQLite-backed provenance store and the hook scripts are embedded
shallowly:

* `src/simple_provenance_tracker/hook_record_prompt.py` — schema
  initialisation (`_init_db`), session upsert and prompt insert (`main`).
* `src/simple_provenance_tracker/git_hooks_helper.py` —
  `get_uncommitted_prompts`, `mark_committed`, `build_provenance_block`.
* `src/simple_provenance_tracker/hook_post_tool.py` — the PostToolUse
  cross-repo observer (`main`).
* `src/simple_provenance_tracker/mcp_tools.py` — the prompt-merging core
  of `build_pr_body`.

Timestamps are ISO-8601 strings in the store and are used only for
ordering and display; they are modelled as abstract instants (`Nat`),
with display rendering modelled as decimal rendering.  External
collaborators (git queries, config file, transcript parsing) enter the
embedding as explicit arguments, mirroring the values they return.
-/

/-- Rows of the `prompts` table created by `_init_db` in
`hook_record_prompt.py`: `committed` is an INTEGER 0/1 flag (modelled as
`Bool`) and `commit_hash` is nullable (modelled as `Option`). -/
structure PromptRow where
  prompt_id : String
  session_id : String
  repo_path : String
  branch_name : String
  cwd : String
  prompt_text : String
  timestamp : Nat
  committed : Bool
  commit_hash : Option String
  deriving DecidableEq, Repr

/-- Rows of the `sessions` table created by `_init_db`. -/
structure SessionRow where
  session_id : String
  repo_path : String
  branch_name : String
  cwd : String
  started_at : Nat
  last_active : Nat
  deriving DecidableEq, Repr

/-- Rows of the `prompt_repos` cross-repo link table targeted by
`hook_post_tool.py`. -/
structure LinkRow where
  prompt_id : String
  repo_path : String
  branch_name : String
  deriving DecidableEq, Repr

/-- State of the provenance store.  `prompt_repos = none` models the
`prompt_repos` table being absent from the database (an INSERT into it
then raises); `some links` models the table existing with rows `links`. -/
structure ProvDB where
  sessions : List SessionRow
  prompts : List PromptRow
  prompt_repos : Option (List LinkRow)
  deriving DecidableEq, Repr

/-- Store produced by `_init_db` in `hook_record_prompt.py` on a fresh
database: it creates only the `sessions` and `prompts` tables (plus
indexes); no statement there creates `prompt_repos`. -/
def emptyDB : ProvDB := ⟨[], [], none⟩

/-- Session upsert executed by `hook_record_prompt.main`:
`INSERT ... ON CONFLICT(session_id) DO UPDATE SET last_active = excluded.last_active,
repo_path = CASE WHEN excluded.repo_path != '' THEN excluded.repo_path ELSE sessions.repo_path END,`
(likewise for `branch_name`), `cwd = excluded.cwd`. -/
def touch_session (db : ProvDB) (sid repo branch cwd : String) (now : Nat) : ProvDB :=
  if db.sessions.any (fun s => s.session_id == sid) then
    { db with sessions := db.sessions.map (fun s =>
        if s.session_id == sid then
          { s with
            last_active := now
            repo_path := if repo ≠ "" then repo else s.repo_path
            branch_name := if branch ≠ "" then branch else s.branch_name
            cwd := cwd }
        else s) }
  else
    { db with sessions := db.sessions ++ [⟨sid, repo, branch, cwd, now, now⟩] }

/-- Prompt insert executed by `hook_record_prompt.main`: the session
upsert and the `INSERT INTO prompts` run in one transaction that is
committed at the end; a primary-key clash on `prompt_id` raises inside
the blanket `except`, so nothing of the transaction persists. -/
def insert_prompt (db : ProvDB) (pid sid repo branch cwd text : String) (now : Nat) : ProvDB :=
  if db.prompts.any (fun p => p.prompt_id == pid) then db
  else
    { touch_session db sid repo branch cwd now with
      prompts := db.prompts ++ [⟨pid, sid, repo, branch, cwd, text, now, false, none⟩] }

/-- Python `str.strip()` on the char sequence (leading and trailing
whitespace removed). -/
def pyStrip (s : String) : String :=
  ⟨((s.data.dropWhile Char.isWhitespace).reverse.dropWhile Char.isWhitespace).reverse⟩

/-- Input to the UserPromptSubmit hook, after the external collaborators
have run: `prompt_field` is `data.get("prompt", "")`; `transcript_text`
is what `_get_prompt_from_transcript` would return (already stripped,
`""` when nothing is found or no transcript path was given); `repo_path`
and `branch` are the results of `_get_repo_info(cwd)`; `now` is the
capture timestamp and `new_id` the freshly generated uuid. -/
structure RecordInput where
  session_id : String
  prompt_field : String
  transcript_text : String
  cwd : String
  repo_path : String
  branch : String
  now : Nat
  new_id : String
  deriving DecidableEq, Repr

/-- Prompt text resolution in `hook_record_prompt.main`:
`prompt_text = data.get("prompt", "").strip()` with the transcript
fallback when that is empty. -/
def resolved_prompt_text (i : RecordInput) : String :=
  let t := pyStrip i.prompt_field
  if t = "" then i.transcript_text else t

/-- The UserPromptSubmit hook `hook_record_prompt.main`: a silent no-op
unless both a prompt text and a session id are present, otherwise the
session upsert plus prompt insert. -/
def hook_record_prompt (db : ProvDB) (i : RecordInput) : ProvDB :=
  if resolved_prompt_text i = "" ∨ i.session_id = "" then db
  else
    insert_prompt db i.new_id i.session_id i.repo_path i.branch i.cwd
      (resolved_prompt_text i) i.now

/-- Row produced in the store by a successful `hook_record_prompt` run on
input `i`. -/
def recordedRow (i : RecordInput) : PromptRow :=
  ⟨i.new_id, i.session_id, i.repo_path, i.branch, i.cwd, resolved_prompt_text i, i.now,
    false, none⟩

/-- Folding the UserPromptSubmit hook over a list of inputs. -/
def record_all (db : ProvDB) (is : List RecordInput) : ProvDB :=
  is.foldl hook_record_prompt db

/-- WHERE clause `repo_path = ? AND committed = 0` shared by
`get_uncommitted_prompts` and `mark_committed` in `git_hooks_helper.py`. -/
def eligible (repo : String) (p : PromptRow) : Bool :=
  p.repo_path == repo && !p.committed

/-- Ordering used by `ORDER BY p.timestamp ASC`. -/
def promptLE (a b : PromptRow) : Prop :=
  a.timestamp ≤ b.timestamp

instance : DecidableRel promptLE :=
  fun a b => Nat.decLe a.timestamp b.timestamp

instance : IsTotal PromptRow promptLE :=
  ⟨fun a b => Nat.le_total a.timestamp b.timestamp⟩

instance : IsTrans PromptRow promptLE :=
  ⟨fun _ _ _ => Nat.le_trans⟩

/-- Query `get_uncommitted_prompts` of `git_hooks_helper.py`:
`SELECT ... FROM prompts p ... WHERE p.repo_path = ? AND p.committed = 0 ORDER BY p.timestamp ASC`. -/
def get_uncommitted_prompts (db : ProvDB) (repo : String) : List PromptRow :=
  List.insertionSort promptLE (db.prompts.filter (eligible repo))

/-- State transition `mark_committed` of `git_hooks_helper.py`:
`UPDATE prompts SET committed = 1, commit_hash = ? WHERE repo_path = ? AND committed = 0`,
returning the cursor rowcount (number of rows matched by the WHERE). -/
def mark_committed (db : ProvDB) (repo h : String) : ProvDB × Nat :=
  ({ db with prompts := db.prompts.map (fun p =>
      if eligible repo p then { p with committed := true, commit_hash := some h } else p) },
   (db.prompts.filter (eligible repo)).length)

/-- The `started_at` column joined onto a prompt row by
`LEFT JOIN sessions s USING (session_id)` (`session_started` in the
query); `none` when no session row matches. -/
def session_started (db : ProvDB) (sid : String) : Option Nat :=
  (db.sessions.find? (fun s => s.session_id == sid)).map (fun s => s.started_at)

/-- One step of the session-grouping loop: extend the prompt's group if
its session is already present, otherwise open a new group at the end. -/
def gbs_step (acc : List (String × List PromptRow)) (p : PromptRow) :
    List (String × List PromptRow) :=
  if acc.any (fun g => g.1 == p.session_id) then
    acc.map (fun g => if g.1 == p.session_id then (g.1, g.2 ++ [p]) else g)
  else acc ++ [(p.session_id, [p])]

/-- Grouping of prompts by `session_id` in `build_provenance_block`,
preserving first-appearance order of sessions and in-group prompt
order (a Python dict of lists). -/
def groupBySession (prompts : List PromptRow) : List (String × List PromptRow) :=
  prompts.foldl gbs_step []

/-- The `started` value stored for a session group: the first grouped
prompt's `session_started` joined column, falling back to that prompt's
own timestamp (`p["session_started"] or p["timestamp"]`). -/
def group_started (db : ProvDB) (g : String × List PromptRow) : Nat :=
  match g.2 with
  | [] => 0
  | p :: _ => (session_started db p.session_id).getD p.timestamp

/-- Display rendering of a timestamp (`_fmt_ts`).  Real code converts the
ISO string to a local calendar string; with instants modelled as `Nat`
this is modelled as decimal rendering, which preserves everything the
formatter claims depend on (which instant is shown, not how). -/
def fmtTs (t : Nat) : String := toString t

/-- Helper `_truncate` of `git_hooks_helper.py`:
`text[:limit - 3] + "..." if len(text) > limit else text`. -/
def truncate (text : String) (limit : Nat) : String :=
  if text.length > limit then text.take (limit - 3) ++ "..." else text

/-- Helper `_duration_str` of `git_hooks_helper.py` on two instants. -/
def duration_str (first last : Nat) : String :=
  let secs := last - first
  if secs < 60 then toString secs ++ "s"
  else if secs < 3600 then toString (secs / 60) ++ "m"
  else
    let h := secs / 60 / 60
    let m := secs / 60 % 60
    if m = 0 then toString h ++ "h" else toString h ++ "h " ++ toString m ++ "m"

/-- Python `sep.join(strings)`. -/
def joinWith (sep : String) : List String → String
  | [] => ""
  | [l] => l
  | l :: ls => l ++ sep ++ joinWith sep ls

/-- Lines of the commit-message provenance block built by
`build_provenance_block` in `git_hooks_helper.py`.  The configured
threshold (`_load_threshold`) and the changed-file list from git
(`_git_changed_files`) are external collaborators passed as arguments. -/
def provenance_lines (db : ProvDB) (repo : String) (threshold : Nat)
    (git_files : List String) : List String :=
  match get_uncommitted_prompts db repo with
  | [] => []
  | p0 :: rest =>
    let prompts := p0 :: rest
    let groups := groupBySession prompts
    let total := prompts.length
    let header := ["", "# ── AI Provenance ──────────────────────────────────────────", "#"]
    let body :=
      if total ≤ threshold then
        (List.enumFrom 1 groups).flatMap (fun g =>
          ("# Session " ++ (toString g.1 ++ "  (" ++ fmtTs (group_started db g.2) ++
              ", id: " ++ g.2.1.take 8 ++ ", " ++ toString g.2.2.length ++ " prompt" ++
              (if g.2.2.length > 1 then "s" else "") ++ ")"))
          :: g.2.2.map (fun p => "#   • " ++ truncate p.prompt_text 90) ++ ["#"])
      else
        let plast := List.getLastD rest p0
        let dur := duration_str p0.timestamp plast.timestamp
        let span := if dur ≠ "" then " over " ++ dur else ""
        ["# " ++ (toString total ++ " prompts · " ++ toString groups.length ++ " session" ++
            (if groups.length > 1 then "s" else "") ++ span), "#"]
        ++ (List.enumFrom 1 groups).map (fun g =>
            "# Session " ++ (toString g.1 ++ "  (" ++ fmtTs (group_started db g.2) ++
              ", id: " ++ g.2.1.take 8 ++ ", " ++ toString g.2.2.length ++ " prompts)"))
        ++ ["#",
            "# First: " ++ truncate p0.prompt_text 80,
            "# Last:  " ++ truncate plast.prompt_text 80,
            "#",
            "# Full history: call get_session_summary in Claude"]
    let files :=
      if git_files.isEmpty then []
      else if git_files.length ≤ 8 then
        ["# Files: " ++ joinWith ", " git_files, "#"]
      else
        ["# Files: " ++ (joinWith ", " (git_files.take 8) ++ " (+" ++
            toString (git_files.length - 8) ++ " more)"), "#"]
    header ++ body ++ files ++ ["# ─────────────────────────────────────────────────────────"]

/-- Formatter `build_provenance_block`: the empty string when there are
no uncommitted prompts, otherwise the newline join of its lines. -/
def build_provenance_block (db : ProvDB) (repo : String) (threshold : Nat)
    (git_files : List String) : String :=
  joinWith "\n" (provenance_lines db repo threshold git_files)

/-- Substring containment on strings, used to state what a rendered
block does or does not contain. -/
def strContains (s pat : String) : Prop :=
  pat.data <:+: s.data

instance (s pat : String) : Decidable (strContains s pat) :=
  List.decidableInfix pat.data s.data

/-- Tool names tracked by the PostToolUse hook (`TRACKED_TOOLS`). -/
def TRACKED_TOOLS : List String := ["Write", "Edit", "MultiEdit", "NotebookEdit"]

/-- Lookup `SELECT repo_path FROM sessions WHERE session_id = ?`
(primary key, so first match). -/
def find_session (db : ProvDB) (sid : String) : Option SessionRow :=
  db.sessions.find? (fun s => s.session_id == sid)

/-- Running maximum-by-timestamp accumulator. -/
def mrp_step (acc : Option PromptRow) (p : PromptRow) : Option PromptRow :=
  match acc with
  | none => some p
  | some q => if q.timestamp < p.timestamp then some p else some q

/-- Lookup `SELECT prompt_id FROM prompts WHERE session_id = ? ORDER BY timestamp DESC LIMIT 1`:
some prompt of the session carrying its greatest timestamp. -/
def most_recent_prompt (db : ProvDB) (sid : String) : Option PromptRow :=
  (db.prompts.filter (fun p => p.session_id == sid)).foldl mrp_step none

/-- Modelled from the spec: the `prompt_repos` table schema is absent
from src (no `CREATE TABLE` for it exists there); per the spec its
composite key is (`prompt_id`, `repo_path`), so
`INSERT OR IGNORE INTO prompt_repos` keeps an existing row and appends
otherwise. -/
def insert_or_ignore (links : List LinkRow) (pid repo branch : String) : List LinkRow :=
  if links.any (fun l => l.prompt_id == pid && l.repo_path == repo) then links
  else links ++ [⟨pid, repo, branch⟩]

/-- Input to the PostToolUse hook after external resolution: `file_repo`
is `_get_repo_root(file_path)` and `branch` is `_get_branch(file_repo)`. -/
structure PostToolInput where
  tool_name : String
  session_id : String
  file_path : String
  file_repo : String
  branch : String
  deriving DecidableEq, Repr

/-- The PostToolUse hook `hook_post_tool.main`.  Every early return and
the swallowed insert failure (no `prompt_repos` table) leave the store
untouched; only reaching the `INSERT OR IGNORE` can change it. -/
def hook_post_tool (db : ProvDB) (i : PostToolInput) : ProvDB :=
  if i.tool_name ∉ TRACKED_TOOLS then db
  else if i.session_id = "" then db
  else if i.file_path = "" then db
  else
    match find_session db i.session_id with
    | none => db
    | some s =>
      if i.file_repo = "" ∨ i.file_repo = s.repo_path then db
      else
        match most_recent_prompt db i.session_id with
        | none => db
        | some p =>
          match db.prompt_repos with
          | none => db
          | some links =>
            { db with prompt_repos := some (insert_or_ignore links p.prompt_id i.file_repo i.branch) }

/-- Engine operations named by the reachability claims: recording a
prompt and marking a repo's uncommitted prompts committed. -/
inductive EngineOp where
  | record (i : RecordInput)
  | mark (repo h : String)
  deriving Repr

/-- One engine operation applied to the store. -/
def applyOp (db : ProvDB) : EngineOp → ProvDB
  | .record i => hook_record_prompt db i
  | .mark repo h => (mark_committed db repo h).1

/-- Store reached by a sequence of engine operations from a freshly
initialised database. -/
def runOps (ops : List EngineOp) : ProvDB :=
  ops.foldl applyOp emptyDB

/-- Modelled from the spec: `prompts_for_commits(commit_hashes)` of the
Attribution Index (its sqlite implementation module is absent from src;
only `mcp_tools.build_pr_body` calls it): prompts whose `commit_hash`
is in the given set, oldest first. -/
def get_prompts_for_commits (db : ProvDB) (hashes : List String) : List PromptRow :=
  List.insertionSort promptLE (db.prompts.filter (fun p =>
    match p.commit_hash with
    | some h => hashes.contains h
    | none => false))

/-- Modelled from the spec: `cross_repo_prompts(repo_path)` of the
Attribution Index (module absent from src): prompts linked to
`repo_path` via a Cross-Repo Link row, oldest first. -/
def get_cross_repo_prompts (db : ProvDB) (repo : String) : List PromptRow :=
  List.insertionSort promptLE (db.prompts.filter (fun p =>
    (db.prompt_repos.getD []).any (fun l => l.prompt_id == p.prompt_id && l.repo_path == repo)))

/-- Deduplication loop of `build_pr_body` in `mcp_tools.py`: walk the
concatenated sources keeping the first occurrence of each `prompt_id`
(`seen` set plus append). -/
def dedupGo : List String → List PromptRow → List PromptRow → List PromptRow
  | _, out, [] => out
  | seen, out, p :: ps =>
    if seen.contains p.prompt_id then dedupGo seen out ps
    else dedupGo (seen ++ [p.prompt_id]) (out ++ [p]) ps

/-- Deduplicate a prompt list by `prompt_id`, first occurrence kept. -/
def dedup_by_prompt_id (ps : List PromptRow) : List PromptRow :=
  dedupGo [] [] ps

/-- The three prompt sources concatenated in the order `build_pr_body`
walks them. -/
def pr_prompt_sources (db : ProvDB) (repo : String) (hashes : List String) : List PromptRow :=
  get_prompts_for_commits db hashes ++ get_uncommitted_prompts db repo ++
    get_cross_repo_prompts db repo

/-- Prompt-merging core of `build_pr_body` in `mcp_tools.py`: merge the
three sources, deduplicate by `prompt_id`, then
`all_prompts.sort(key=lambda p: p["timestamp"])` (a stable sort). -/
def pr_merged_prompts (db : ProvDB) (repo : String) (hashes : List String) : List PromptRow :=
  List.insertionSort promptLE (dedup_by_prompt_id (pr_prompt_sources db repo hashes))

/-- Example store with five uncommitted prompts in one session, strictly
increasing timestamps, repo `/r`. -/
def exDB5 : ProvDB :=
  ⟨[⟨"s1", "/r", "main", "/r", 1, 5⟩],
   [⟨"p1", "s1", "/r", "main", "/r", "alpha", 1, false, none⟩,
    ⟨"p2", "s1", "/r", "main", "/r", "bravo", 2, false, none⟩,
    ⟨"p3", "s1", "/r", "main", "/r", "gamma", 3, false, none⟩,
    ⟨"p4", "s1", "/r", "main", "/r", "delta", 4, false, none⟩,
    ⟨"p5", "s1", "/r", "main", "/r", "echo", 5, false, none⟩],
   none⟩

/-- Example store with six uncommitted prompts with pairwise distinct
texts. -/
def exDB6 : ProvDB :=
  ⟨[⟨"s1", "/r", "main", "/r", 1, 6⟩],
   [⟨"p1", "s1", "/r", "main", "/r", "alpha", 1, false, none⟩,
    ⟨"p2", "s1", "/r", "main", "/r", "bravo", 2, false, none⟩,
    ⟨"p3", "s1", "/r", "main", "/r", "gamma", 3, false, none⟩,
    ⟨"p4", "s1", "/r", "main", "/r", "delta", 4, false, none⟩,
    ⟨"p5", "s1", "/r", "main", "/r", "echo", 5, false, none⟩,
    ⟨"p6", "s1", "/r", "main", "/r", "foxtrot", 6, false, none⟩],
   none⟩

/-- Example store with six uncommitted prompts that all carry the same
text. -/
def exDB6same : ProvDB :=
  ⟨[⟨"s1", "/r", "main", "/r", 1, 6⟩],
   [⟨"q1", "s1", "/r", "main", "/r", "fix the parser bug", 1, false, none⟩,
    ⟨"q2", "s1", "/r", "main", "/r", "fix the parser bug", 2, false, none⟩,
    ⟨"q3", "s1", "/r", "main", "/r", "fix the parser bug", 3, false, none⟩,
    ⟨"q4", "s1", "/r", "main", "/r", "fix the parser bug", 4, false, none⟩,
    ⟨"q5", "s1", "/r", "main", "/r", "fix the parser bug", 5, false, none⟩,
    ⟨"q6", "s1", "/r", "main", "/r", "fix the parser bug", 6, false, none⟩],
   none⟩

/-- Count of cross-repo link rows carrying a given
(`prompt_id`, `repo_path`) composite key. -/
def countLinks (db : ProvDB) (pid repo : String) : Nat :=
  (db.prompt_repos.getD []).countP (fun l => l.prompt_id == pid && l.repo_path == repo)

/-- Example store for the cross-repo hook: the session's primary repo is
`/a`, while its (only, hence most recent) prompt was captured with
`repo_path = /b`. -/
def exC6db : ProvDB :=
  ⟨[⟨"s", "/a", "main", "/a", 0, 1⟩],
   [⟨"p1", "s", "/b", "feat", "/b", "do it", 1, false, none⟩],
   some []⟩

/-- PostToolUse input whose write resolved to repo `/b`. -/
def exC6inp : PostToolInput := ⟨"Write", "s", "/b/f.txt", "/b", "feat"⟩

/-- Example store for the PR rollup: prompt `pa` is committed under
`h1` and also cross-repo linked to `/r`; prompt `pb` is uncommitted. -/
def exC9db : ProvDB :=
  ⟨[⟨"s1", "/r", "main", "/r", 1, 2⟩],
   [⟨"pa", "s1", "/q", "main", "/q", "one", 1, true, some "h1"⟩,
    ⟨"pb", "s1", "/r", "main", "/r", "two", 2, false, none⟩],
   some [⟨"pa", "/r", "main"⟩]⟩

/-- Three capture-hook inputs for session `S1` in repo `/r` (scenario A). -/
def exRecIns : List RecordInput :=
  [⟨"S1", "add a parser", "", "/r", "/r", "main", 1, "p1"⟩,
   ⟨"S1", "fix the tests", "", "/r", "/r", "main", 2, "p2"⟩,
   ⟨"S1", "update the docs", "", "/r", "/r", "main", 3, "p3"⟩]

/-- Engine-operation sequence recording one prompt and committing it. -/
def exOps : List EngineOp :=
  [.record ⟨"S1", "hello world", "", "/r", "/r", "main", 1, "p1"⟩,
   .mark "/r" "abc123"]

/-- The prompt row left by `exOps`. -/
def exMarkedRow : PromptRow :=
  ⟨"p1", "S1", "/r", "main", "/r", "hello world", 1, true, some "abc123"⟩

/-! ## Theorems -/

/-- A string starting with prefix `a` differs from `b` whenever `a` and
`b` disagree at a position inside `a`. -/
theorem ne_of_append_getElem (a x b : String) (n : Nat) (h1 : n < a.data.length)
    (h2 : a.data[n]? ≠ b.data[n]?) : a ++ x ≠ b := by
  intro he
  apply h2
  have hd : b.data = a.data ++ x.data := by rw [← he, String.data_append]
  rw [hd, List.getElem?_append_left h1]

/-- Every line of a joined block occurs in the joined string. -/
theorem mem_data_infix_joinWith (sep : String) (lines : List String) (s : String)
    (h : s ∈ lines) : s.data <:+: (joinWith sep lines).data := by
  induction lines with
  | nil => cases h
  | cons l ls ih =>
    rcases List.mem_cons.mp h with rfl | hmem
    · cases ls with
      | nil => exact List.infix_refl _
      | cons l2 ls2 =>
        show s.data <:+: ((s ++ sep) ++ joinWith sep (l2 :: ls2)).data
        rw [String.data_append, String.data_append, List.append_assoc]
        exact (List.prefix_append s.data _).isInfix
    · cases ls with
      | nil => cases hmem
      | cons l2 ls2 =>
        have hin := ih hmem
        show s.data <:+: ((l ++ sep) ++ joinWith sep (l2 :: ls2)).data
        rw [String.data_append]
        exact hin.trans (List.suffix_append _ _).isInfix

/-- Containment in a prefix extends over an appended suffix. -/
theorem infix_data_append (pre t pat : String) (h : pat.data <:+: pre.data) :
    pat.data <:+: (pre ++ t).data := by
  rw [String.data_append]
  exact h.trans (List.prefix_append _ _).isInfix

/-- C10: when the capture payload has an absent or empty session id, or
no prompt text can be resolved, the prompt-recording hook leaves the
store untouched (fail-open, no session row, no prompt row). -/
theorem C10_capture_fail_open (db : ProvDB) (i : RecordInput)
    (h : i.session_id = "" ∨ resolved_prompt_text i = "") :
    hook_record_prompt db i = db := by
  rcases h with h | h <;> simp [hook_record_prompt, h]

theorem C10_capture_fail_open_witness :
    ((⟨"", "hi", "", "/r", "/r", "main", 1, "p1"⟩ : RecordInput).session_id = ""
      ∨ resolved_prompt_text ⟨"", "hi", "", "/r", "/r", "main", 1, "p1"⟩ = "")
    ∧ hook_record_prompt exDB5 ⟨"", "hi", "", "/r", "/r", "main", 1, "p1"⟩ = exDB5 :=
  ⟨Or.inl rfl, C10_capture_fail_open exDB5 _ (Or.inl rfl)⟩

/-- Once the mark update has run over a row, the row is no longer
eligible for a further mark on the same repo. -/
theorem eligible_mark_update (r h : String) (p : PromptRow) :
    eligible r (if eligible r p then { p with committed := true, commit_hash := some h } else p)
      = false := by
  cases hE : eligible r p with
  | true => simp [hE, eligible]
  | false => simp [hE]

/-- After a mark update, no row of the mapped list is eligible. -/
theorem mark_map_eligible_nil (r h : String) (l : List PromptRow) :
    (l.map (fun p =>
      if eligible r p then { p with committed := true, commit_hash := some h } else p)).filter
        (eligible r) = [] := by
  rw [List.filter_eq_nil_iff]
  intro a ha
  rcases List.mem_map.mp ha with ⟨p, _, rfl⟩
  simp [eligible_mark_update]

/-- An empty uncommitted query means the raw filter is empty. -/
theorem filter_eligible_nil_of_uncommitted_nil (db : ProvDB) (r : String)
    (h : get_uncommitted_prompts db r = []) : db.prompts.filter (eligible r) = [] := by
  have hperm := List.perm_insertionSort promptLE (db.prompts.filter (eligible r))
  rw [get_uncommitted_prompts] at h
  rw [h] at hperm
  exact hperm.symm.eq_nil

/-- C3: a second `mark_committed` on the same repo with no intervening
recording returns 0 and changes nothing; marking with zero eligible
prompts is valid, returns 0 and leaves the store unchanged. -/
theorem C3_mark_committed_idempotent (db : ProvDB) (r h1 h2 : String) :
    (mark_committed (mark_committed db r h1).1 r h2).2 = 0
    ∧ (mark_committed (mark_committed db r h1).1 r h2).1 = (mark_committed db r h1).1
    ∧ (get_uncommitted_prompts db r = [] →
        (mark_committed db r h1).2 = 0 ∧ (mark_committed db r h1).1 = db) := by
  refine ⟨?_, ?_, ?_⟩
  · simp [mark_committed, mark_map_eligible_nil]
  · have hmm : ∀ p ∈ db.prompts,
        (fun q =>
          if eligible r q then { q with committed := true, commit_hash := some h2 } else q)
          ((fun q =>
            if eligible r q then { q with committed := true, commit_hash := some h1 } else q) p)
        = (fun q =>
            if eligible r q then { q with committed := true, commit_hash := some h1 } else q) p := by
      intro p _
      simp [eligible_mark_update r h1 p]
    simp only [mark_committed, List.map_map]
    congr 1
    exact List.map_congr_left hmm
  · intro h0
    have hf := filter_eligible_nil_of_uncommitted_nil db r h0
    refine ⟨by simp [mark_committed, hf], ?_⟩
    have hid : ∀ p ∈ db.prompts,
        (if eligible r p then { p with committed := true, commit_hash := some h1 } else p) = p := by
      intro p hp
      exact if_neg (List.filter_eq_nil_iff.mp hf p hp)
    simp only [mark_committed]
    rw [List.map_congr_left hid, List.map_id']

theorem C3_witness :
    get_uncommitted_prompts emptyDB "/r" = []
    ∧ (mark_committed emptyDB "/r" "h").2 = 0 ∧ (mark_committed emptyDB "/r" "h").1 = emptyDB :=
  ⟨rfl, (C3_mark_committed_idempotent emptyDB "/r" "h" "h2").2.2 rfl⟩

/-- C5 counterexample: touching a session with repo `/a` and then with
repo `/b` leaves `repo_path = "/b"` — the most recent non-empty value,
not the first known one. -/
theorem C5_counterexample :
    (touch_session (touch_session emptyDB "s" "/a" "main" "/w" 1) "s" "/b" "main" "/w" 2).sessions
      = [⟨"s", "/b", "main", "/w", 1, 2⟩] ∧ ("/b" : String) ≠ "/a" := by
  constructor
  · decide
  · decide

/-- C5 amended: repeated initialization keeps one row per session id
(uniqueness is preserved), and touching a fresh session twice yields one
row whose `last_active` is the second call's timestamp, whose
`started_at` is the first call's, and whose `repo_path`/`branch_name`
hold the latest non-empty value (empty values never overwrite). -/
theorem C5_touch_session_merge :
    (∀ (db : ProvDB) (sid r b c : String) (t : Nat),
        (db.sessions.map (fun s => s.session_id)).Nodup →
        ((touch_session db sid r b c t).sessions.map (fun s => s.session_id)).Nodup)
    ∧ (∀ (db : ProvDB) (sid r1 b1 c1 r2 b2 c2 : String) (t1 t2 : Nat),
        db.sessions.any (fun s => s.session_id == sid) = false →
        (touch_session (touch_session db sid r1 b1 c1 t1) sid r2 b2 c2 t2).sessions
          = db.sessions ++
              [⟨sid, if r2 ≠ "" then r2 else r1, if b2 ≠ "" then b2 else b1, c2, t1, t2⟩]) := by
  constructor
  · intro db sid r b c t hnd
    unfold touch_session
    by_cases hany : db.sessions.any (fun s => s.session_id == sid) = true
    · rw [if_pos hany]
      have hm : (db.sessions.map (fun s =>
          if s.session_id == sid then
            { s with
              last_active := t
              repo_path := if r ≠ "" then r else s.repo_path
              branch_name := if b ≠ "" then b else s.branch_name
              cwd := c }
          else s)).map (fun s => s.session_id) = db.sessions.map (fun s => s.session_id) := by
        rw [List.map_map]
        refine List.map_congr_left ?_
        intro s _
        by_cases hs : s.session_id = sid
        · simp [hs]
        · simp [hs]
      rw [hm]
      exact hnd
    · rw [if_neg hany]
      rw [List.map_append]
      have hno : sid ∉ db.sessions.map (fun s => s.session_id) := by
        intro hmem
        rcases List.mem_map.mp hmem with ⟨s, hs, hsid⟩
        rw [Bool.not_eq_true, List.any_eq_false] at hany
        exact absurd (by simp [hsid]) (hany s hs)
      refine List.Nodup.append hnd (List.nodup_singleton _) ?_
      intro x hx hx2
      simp only [List.map_singleton, List.mem_singleton] at hx2
      subst hx2
      exact hno hx
  · intro db sid r1 b1 c1 r2 b2 c2 t1 t2 hany
    have h1 : touch_session db sid r1 b1 c1 t1
        = { db with sessions := db.sessions ++ [⟨sid, r1, b1, c1, t1, t1⟩] } := by
      unfold touch_session
      rw [if_neg (by rw [hany]; exact Bool.false_ne_true)]
    rw [h1]
    have hany2 : (({ db with
          sessions := db.sessions ++ [(⟨sid, r1, b1, c1, t1, t1⟩ : SessionRow)] } : ProvDB).sessions.any
        (fun s => s.session_id == sid)) = true := by
      show ((db.sessions ++ [(⟨sid, r1, b1, c1, t1, t1⟩ : SessionRow)]).any
        (fun s => s.session_id == sid)) = true
      rw [List.any_append]
      simp
    unfold touch_session
    rw [if_pos hany2]
    dsimp only
    rw [List.map_append]
    congr 1
    · refine (List.map_congr_left ?_).trans (List.map_id' _)
      intro s hs
      rw [List.any_eq_false] at hany
      rw [if_neg (hany s hs)]
    · simp

theorem C5_touch_session_merge_witness :
    emptyDB.sessions.any (fun s => s.session_id == "s") = false
    ∧ (touch_session (touch_session emptyDB "s" "" "main" "/w" 1) "s" "/x" "main" "/w" 2).sessions
        = [⟨"s", "/x", "main", "/w", 1, 2⟩] :=
  ⟨rfl, (C5_touch_session_merge.2 emptyDB "s" "" "main" "/w" "/x" "main" "/w" 1 2 rfl).trans
    (by decide)⟩

/-- Session upserts never touch the cross-repo link table. -/
theorem touch_session_keeps_links (db : ProvDB) (sid r b c : String) (t : Nat) :
    (touch_session db sid r b c t).prompt_repos = db.prompt_repos := by
  unfold touch_session
  split <;> rfl

/-- Prompt inserts never touch the cross-repo link table. -/
theorem insert_prompt_keeps_links (db : ProvDB) (pid sid r b c text : String) (t : Nat) :
    (insert_prompt db pid sid r b c text t).prompt_repos = db.prompt_repos := by
  unfold insert_prompt
  split
  · rfl
  · exact touch_session_keeps_links db sid r b c t

/-- Recording a prompt never touches the cross-repo link table. -/
theorem hook_record_keeps_links (db : ProvDB) (i : RecordInput) :
    (hook_record_prompt db i).prompt_repos = db.prompt_repos := by
  unfold hook_record_prompt
  split
  · rfl
  · exact insert_prompt_keeps_links db i.new_id i.session_id i.repo_path i.branch i.cwd
      (resolved_prompt_text i) i.now

/-- Recording any number of prompts never touches the cross-repo link
table. -/
theorem record_all_keeps_links (is : List RecordInput) (db : ProvDB) :
    (record_all db is).prompt_repos = db.prompt_repos := by
  induction is generalizing db with
  | nil => rfl
  | cons i rest ih =>
    show (record_all (hook_record_prompt db i) rest).prompt_repos = _
    rw [ih, hook_record_keeps_links]

/-- C7: no code path of the hooks creates the `prompt_repos` table: a
store initialised and populated by the record-prompt hook has no such
table, and the post-tool hook run against any store without the table
swallows the failed insert and leaves the store unchanged — so the
store never contains a cross-repo link row. -/
theorem C7_missing_prompt_repos_table :
    (∀ (db : ProvDB) (i : PostToolInput), db.prompt_repos = none → hook_post_tool db i = db)
    ∧ ∀ is : List RecordInput, (record_all emptyDB is).prompt_repos = none := by
  constructor
  · intro db i h
    unfold hook_post_tool
    repeat' split <;> try rfl
    simp_all
  · intro is
    rw [record_all_keeps_links]
    rfl

theorem C7_missing_prompt_repos_table_witness :
    exDB5.prompt_repos = none
    ∧ hook_post_tool exDB5 ⟨"Write", "s1", "/q/f.txt", "/q", "main"⟩ = exDB5 :=
  ⟨rfl, C7_missing_prompt_repos_table.1 exDB5 ⟨"Write", "s1", "/q/f.txt", "/q", "main"⟩ rfl⟩

/-- The accumulator's timestamp never decreases under one step. -/
theorem mrp_step_le (acc : Option PromptRow) (q : PromptRow) :
    ∀ b, mrp_step acc q = some b → q.timestamp ≤ b.timestamp ∧
      ∀ a, acc = some a → a.timestamp ≤ b.timestamp := by
  intro b hb
  cases acc with
  | none =>
    injection hb with hb
    subst hb
    exact ⟨Nat.le_refl _, by intro a ha; cases ha⟩
  | some a =>
    dsimp [mrp_step] at hb
    by_cases hlt : a.timestamp < q.timestamp
    · rw [if_pos hlt] at hb
      injection hb with hb
      subst hb
      refine ⟨Nat.le_refl _, ?_⟩
      intro a2 ha2
      injection ha2 with ha2
      subst ha2
      exact Nat.le_of_lt hlt
    · rw [if_neg hlt] at hb
      injection hb with hb
      subst hb
      refine ⟨Nat.le_of_not_lt hlt, ?_⟩
      intro a2 ha2
      injection ha2 with ha2
      subst ha2
      exact Nat.le_refl _

/-- Specification of the running-maximum fold: a `some` result is the
accumulator or a list element, and dominates all list elements and the
accumulator in timestamp. -/
theorem mrp_fold_spec (l : List PromptRow) :
    ∀ (acc : Option PromptRow) (p : PromptRow), l.foldl mrp_step acc = some p →
      (acc = some p ∨ p ∈ l)
      ∧ (∀ q ∈ l, q.timestamp ≤ p.timestamp)
      ∧ (∀ a, acc = some a → a.timestamp ≤ p.timestamp) := by
  induction l with
  | nil =>
    intro acc p h
    refine ⟨Or.inl h, by simp, ?_⟩
    intro a ha
    rw [ha] at h
    injection h with h
    rw [h]
  | cons q l ih =>
    intro acc p h
    rw [List.foldl_cons] at h
    obtain ⟨hmem, hmax, hacc⟩ := ih (mrp_step acc q) p h
    have hstep_some : ∃ b, mrp_step acc q = some b := by
      cases acc with
      | none => exact ⟨q, rfl⟩
      | some a =>
        dsimp [mrp_step]
        by_cases hlt : a.timestamp < q.timestamp
        · exact ⟨q, by rw [if_pos hlt]⟩
        · exact ⟨a, by rw [if_neg hlt]⟩
    obtain ⟨b, hb⟩ := hstep_some
    have hble : b.timestamp ≤ p.timestamp := by
      rcases hmem with hm | hm
      · rw [hb] at hm
        injection hm with hm
        rw [hm]
      · exact hacc b hb
    obtain ⟨hqb, haccb⟩ := mrp_step_le acc q b hb
    refine ⟨?_, ?_, ?_⟩
    · rcases hmem with hm | hm
      · rw [hb] at hm
        cases acc with
        | none =>
          injection hb with hb2
          rw [← hb2] at hm
          injection hm with hm
          exact Or.inr (hm ▸ List.mem_cons_self q l)
        | some a =>
          dsimp [mrp_step] at hb
          by_cases hlt : a.timestamp < q.timestamp
          · rw [if_pos hlt] at hb
            injection hb with hb2
            rw [← hb2] at hm
            injection hm with hm
            exact Or.inr (hm ▸ List.mem_cons_self q l)
          · rw [if_neg hlt] at hb
            injection hb with hb2
            rw [← hb2] at hm
            exact Or.inl hm
      · exact Or.inr (List.mem_cons_of_mem q hm)
    · intro x hx
      rcases List.mem_cons.mp hx with hx | hx
      · subst hx
        exact Nat.le_trans hqb hble
      · exact hmax x hx
    · intro a ha
      exact Nat.le_trans (haccb a ha) hble

/-- A `some` result of `most_recent_prompt` is a prompt of the session
with the greatest timestamp among the session's prompts. -/
theorem most_recent_prompt_spec (db : ProvDB) (sid : String) (p : PromptRow)
    (h : most_recent_prompt db sid = some p) :
    p ∈ db.prompts ∧ p.session_id = sid
    ∧ ∀ q ∈ db.prompts, q.session_id = sid → q.timestamp ≤ p.timestamp := by
  unfold most_recent_prompt at h
  obtain ⟨hmem, hmax, _⟩ := mrp_fold_spec _ none p h
  rcases hmem with h' | hmem
  · cases h'
  · have hf := List.mem_filter.mp hmem
    refine ⟨hf.1, by simpa using hf.2, ?_⟩
    intro q hq hsid
    exact hmax q (List.mem_filter.mpr ⟨hq, by simp [hsid]⟩)

/-- When the session has no prompts, the most-recent lookup is empty. -/
theorem most_recent_prompt_none (db : ProvDB) (sid : String)
    (h : ∀ q ∈ db.prompts, q.session_id ≠ sid) : most_recent_prompt db sid = none := by
  unfold most_recent_prompt
  have hf : db.prompts.filter (fun p => p.session_id == sid) = [] := by
    rw [List.filter_eq_nil_iff]
    intro a ha
    simpa using h a ha
  rw [hf]
  rfl

/-- The post-tool hook is a no-op when the session has no prompt yet. -/
theorem hook_post_tool_of_no_prompt (db : ProvDB) (i : PostToolInput)
    (h : most_recent_prompt db i.session_id = none) : hook_post_tool db i = db := by
  unfold hook_post_tool
  repeat' split <;> simp_all

/-- C8: the prompt chosen by the post-write observer is the session's
prompt with the greatest timestamp; if the session has no prompt yet the
write is silently ignored and the store is unchanged. -/
theorem C8_most_recent_attribution :
    (∀ (db : ProvDB) (sid : String) (p : PromptRow),
        most_recent_prompt db sid = some p →
        p ∈ db.prompts ∧ p.session_id = sid
          ∧ ∀ q ∈ db.prompts, q.session_id = sid → q.timestamp ≤ p.timestamp)
    ∧ (∀ (db : ProvDB) (i : PostToolInput),
        (∀ q ∈ db.prompts, q.session_id ≠ i.session_id) → hook_post_tool db i = db) :=
  ⟨most_recent_prompt_spec,
   fun db i h => hook_post_tool_of_no_prompt db i (most_recent_prompt_none db i.session_id h)⟩

theorem C8_most_recent_attribution_witness :
    most_recent_prompt exDB6 "s1" = some ⟨"p6", "s1", "/r", "main", "/r", "foxtrot", 6, false, none⟩
    ∧ ((⟨"p6", "s1", "/r", "main", "/r", "foxtrot", 6, false, none⟩ : PromptRow) ∈ exDB6.prompts
        ∧ (⟨"p6", "s1", "/r", "main", "/r", "foxtrot", 6, false, none⟩ : PromptRow).session_id = "s1"
        ∧ ∀ q ∈ exDB6.prompts, q.session_id = "s1" →
            q.timestamp ≤ (⟨"p6", "s1", "/r", "main", "/r", "foxtrot", 6, false, none⟩ : PromptRow).timestamp) :=
  ⟨by decide, C8_most_recent_attribution.1 exDB6 "s1" _ (by decide)⟩

/-- The post-tool hook either leaves the store unchanged or, when every
guard passes, applies exactly one idempotent link insert. -/
theorem hook_post_tool_spec (db : ProvDB) (i : PostToolInput) :
    hook_post_tool db i = db
    ∨ ∃ s p links,
        find_session db i.session_id = some s
        ∧ most_recent_prompt db i.session_id = some p
        ∧ db.prompt_repos = some links
        ∧ i.tool_name ∈ TRACKED_TOOLS ∧ i.session_id ≠ "" ∧ i.file_path ≠ ""
        ∧ i.file_repo ≠ "" ∧ i.file_repo ≠ s.repo_path
        ∧ hook_post_tool db i
            = { db with
                prompt_repos := some (insert_or_ignore links p.prompt_id i.file_repo i.branch) } := by
  by_cases h1 : i.tool_name ∉ TRACKED_TOOLS
  · left
    simp [hook_post_tool, h1]
  by_cases h2 : i.session_id = ""
  · left
    simp [hook_post_tool, h1, h2]
  by_cases h3 : i.file_path = ""
  · left
    simp [hook_post_tool, h1, h2, h3]
  cases hfind : find_session db i.session_id with
  | none =>
    left
    simp [hook_post_tool, h1, h2, h3, hfind]
  | some s =>
    by_cases h4 : i.file_repo = "" ∨ i.file_repo = s.repo_path
    · left
      simp only [hook_post_tool, hfind]
      rw [if_neg h1, if_neg h2, if_neg h3, if_pos h4]
    cases hmrp : most_recent_prompt db i.session_id with
    | none =>
      left
      simp [hook_post_tool, h1, h2, h3, hfind, h4, hmrp]
    | some p =>
      cases hpr : db.prompt_repos with
      | none =>
        left
        simp [hook_post_tool, h1, h2, h3, hfind, h4, hmrp, hpr]
      | some links =>
        right
        refine ⟨s, p, links, rfl, rfl, rfl, not_not.mp h1, h2, h3,
          fun he => h4 (Or.inl he), fun he => h4 (Or.inr he), ?_⟩
        simp [hook_post_tool, h1, h2, h3, hfind, h4, hmrp, hpr]

/-- Re-inserting the same composite key is the identity. -/
theorem insert_or_ignore_idem (links : List LinkRow) (pid repo branch : String) :
    insert_or_ignore (insert_or_ignore links pid repo branch) pid repo branch
      = insert_or_ignore links pid repo branch := by
  by_cases h : (links.any fun l => l.prompt_id == pid && l.repo_path == repo) = true
  · simp [insert_or_ignore, h]
  · simp [insert_or_ignore, h, List.any_append]

/-- C6 counterexample: the hook compares the write's repo with the
SESSION's primary repo, not with the prompt's own `repo_path`; here the
target repo `/b` equals the linked prompt's own `repo_path`, yet a link
row is inserted rather than the call being a no-op. -/
theorem C6_counterexample :
    (hook_post_tool exC6db exC6inp).prompt_repos = some [⟨"p1", "/b", "feat"⟩]
    ∧ ∀ p ∈ exC6db.prompts, p.prompt_id = "p1" → p.repo_path = "/b" := by
  constructor
  · decide
  · decide

/-- C6 amended: the post-tool link insert is idempotent (a second call
with identical arguments changes nothing and leaves exactly one row per
composite key, never more), and a write resolving to the SESSION's
primary repo is a no-op; the prompt's own `repo_path` is not consulted. -/
theorem C6_link_idempotent :
    (∀ (db : ProvDB) (i : PostToolInput),
        hook_post_tool (hook_post_tool db i) i = hook_post_tool db i)
    ∧ (∀ (db : ProvDB) (i : PostToolInput) (s : SessionRow),
        find_session db i.session_id = some s → i.file_repo = s.repo_path →
        hook_post_tool db i = db)
    ∧ (∀ (db : ProvDB) (i : PostToolInput) (pid repo : String),
        countLinks db pid repo ≤ 1 → countLinks (hook_post_tool db i) pid repo ≤ 1) := by
  refine ⟨?_, ?_, ?_⟩
  · intro db i
    rcases hook_post_tool_spec db i with h | ⟨s, p, links, hfind, hmrp, hpr, ht, hs2, hf3, hr4, hr5, heq⟩
    · rw [h]
      exact h
    · rw [heq]
      have hfind2 : find_session { db with
          prompt_repos := some (insert_or_ignore links p.prompt_id i.file_repo i.branch) }
          i.session_id = some s := hfind
      have hmrp2 : most_recent_prompt { db with
          prompt_repos := some (insert_or_ignore links p.prompt_id i.file_repo i.branch) }
          i.session_id = some p := hmrp
      have h4 : ¬(i.file_repo = "" ∨ i.file_repo = s.repo_path) := by
        intro hc
        rcases hc with hc | hc
        · exact hr4 hc
        · exact hr5 hc
      simp only [hook_post_tool, hfind2, hmrp2]
      rw [if_neg (not_not.mpr ht), if_neg hs2, if_neg hf3, if_neg h4]
      simp [insert_or_ignore_idem]
  · intro db i s hfind heq
    rcases hook_post_tool_spec db i with h | ⟨s2, p, links, hfind2, _, _, _, _, _, _, hr5, _⟩
    · exact h
    · rw [hfind] at hfind2
      injection hfind2 with hs2
      exact absurd (hs2 ▸ heq) hr5
  · intro db i pid repo hle
    rcases hook_post_tool_spec db i with h | ⟨s, p, links, _, _, hpr, _, _, _, _, _, heq⟩
    · rw [h]
      exact hle
    · rw [heq]
      unfold countLinks at hle ⊢
      rw [hpr] at hle
      simp only [Option.getD_some] at hle ⊢
      unfold insert_or_ignore
      by_cases hany : (links.any fun l => l.prompt_id == p.prompt_id && l.repo_path == i.file_repo) = true
      · rw [if_pos hany]
        exact hle
      · rw [if_neg hany]
        rw [List.countP_append]
        by_cases hk : (p.prompt_id == pid && i.file_repo == repo) = true
        · have hk1 : p.prompt_id = pid := by
            have := (Bool.and_eq_true _ _).mp hk
            exact eq_of_beq this.1
          have hk2 : i.file_repo = repo := by
            have := (Bool.and_eq_true _ _).mp hk
            exact eq_of_beq this.2
          have hz : links.countP (fun l => l.prompt_id == pid && l.repo_path == repo) = 0 := by
            rw [List.countP_eq_zero]
            intro l hl
            rw [Bool.not_eq_true, ← hk1, ← hk2]
            rw [Bool.not_eq_true, List.any_eq_false] at hany
            simpa using hany l hl
          rw [hz]
          simp [List.countP_cons, hk1, hk2]
        · have hz2 : ([(⟨p.prompt_id, i.file_repo, i.branch⟩ : LinkRow)].countP
              (fun l => l.prompt_id == pid && l.repo_path == repo)) = 0 := by
            rw [List.countP_eq_zero]
            intro l hl
            rw [List.mem_singleton] at hl
            subst hl
            simpa using hk
          rw [hz2]
          simpa using hle

theorem C6_link_idempotent_witness :
    find_session exC6db "s" = some ⟨"s", "/a", "main", "/a", 0, 1⟩
    ∧ hook_post_tool exC6db ⟨"Write", "s", "/a/f.txt", "/a", "main"⟩ = exC6db :=
  ⟨by decide, C6_link_idempotent.2.1 exC6db ⟨"Write", "s", "/a/f.txt", "/a", "main"⟩
    ⟨"s", "/a", "main", "/a", 0, 1⟩ (by decide) rfl⟩

/-- The record hook either leaves the prompts table unchanged or appends
exactly the recorded row. -/
theorem hook_record_prompts_shape (db : ProvDB) (i : RecordInput) :
    (hook_record_prompt db i).prompts = db.prompts
    ∨ (hook_record_prompt db i).prompts = db.prompts ++ [recordedRow i] := by
  unfold hook_record_prompt insert_prompt
  split
  · exact Or.inl rfl
  · split
    · exact Or.inl rfl
    · exact Or.inr rfl

/-- One engine operation preserves the committed/commit-hash invariant. -/
theorem applyOp_inv (db : ProvDB) (op : EngineOp)
    (h : ∀ p ∈ db.prompts, p.committed = true ↔ p.commit_hash.isSome = true) :
    ∀ p ∈ (applyOp db op).prompts, p.committed = true ↔ p.commit_hash.isSome = true := by
  cases op with
  | record i =>
    intro p hp
    have hp2 : p ∈ (hook_record_prompt db i).prompts := hp
    rcases hook_record_prompts_shape db i with hs | hs
    · rw [hs] at hp2
      exact h p hp2
    · rw [hs] at hp2
      rcases List.mem_append.mp hp2 with hp3 | hp3
      · exact h p hp3
      · rw [List.mem_singleton] at hp3
        subst hp3
        simp [recordedRow]
  | mark r hsh =>
    intro p hp
    have hp2 : p ∈ (mark_committed db r hsh).1.prompts := hp
    simp only [mark_committed] at hp2
    rcases List.mem_map.mp hp2 with ⟨q, hq, rfl⟩
    by_cases hE : eligible r q
    · simp [hE]
    · rw [if_neg hE]
      exact h q hq

/-- Committed rows survive every engine operation unchanged. -/
theorem applyOp_keeps_committed (db : ProvDB) (op : EngineOp) (p : PromptRow)
    (hp : p ∈ db.prompts) (hc : p.committed = true) : p ∈ (applyOp db op).prompts := by
  cases op with
  | record i =>
    show p ∈ (hook_record_prompt db i).prompts
    rcases hook_record_prompts_shape db i with hs | hs
    · rw [hs]
      exact hp
    · rw [hs]
      exact List.mem_append_left _ hp
  | mark r hsh =>
    show p ∈ (mark_committed db r hsh).1.prompts
    simp only [mark_committed]
    have hE : ¬ eligible r p = true := by
      simp [eligible, hc]
    have hfix : (if eligible r p then
        { p with committed := true, commit_hash := some hsh } else p) = p := if_neg hE
    exact List.mem_map.mpr ⟨p, hp, hfix⟩

/-- The invariant holds along any fold of engine operations. -/
theorem foldl_applyOp_inv (l : List EngineOp) :
    ∀ db : ProvDB, (∀ p ∈ db.prompts, p.committed = true ↔ p.commit_hash.isSome = true) →
      ∀ p ∈ (l.foldl applyOp db).prompts, p.committed = true ↔ p.commit_hash.isSome = true := by
  induction l with
  | nil => intro db h; exact h
  | cons o l ih => intro db h; exact ih (applyOp db o) (applyOp_inv db o h)

/-- Committed rows survive any fold of engine operations. -/
theorem foldl_applyOp_keeps_committed (l : List EngineOp) :
    ∀ (db : ProvDB) (p : PromptRow), p ∈ db.prompts → p.committed = true →
      p ∈ (l.foldl applyOp db).prompts := by
  induction l with
  | nil => intro db p hp _; exact hp
  | cons o l ih =>
    intro db p hp hc
    exact ih (applyOp db o) p (applyOp_keeps_committed db o p hp hc) hc

/-- C2: in every store reachable by engine operations from a fresh
database, a prompt row is committed exactly when its commit hash is
non-null, and once committed a row is never reverted by any further
operations. -/
theorem C2_committed_iff_hash (ops : List EngineOp) :
    (∀ p ∈ (runOps ops).prompts, p.committed = true ↔ p.commit_hash.isSome = true)
    ∧ ∀ (more : List EngineOp) (p : PromptRow),
        p ∈ (runOps ops).prompts → p.committed = true →
        p ∈ (runOps (ops ++ more)).prompts := by
  constructor
  · exact foldl_applyOp_inv ops emptyDB (by intro p hp; cases hp)
  · intro more p hp hc
    show p ∈ ((ops ++ more).foldl applyOp emptyDB).prompts
    rw [List.foldl_append]
    exact foldl_applyOp_keeps_committed more (runOps ops) p hp hc

theorem C2_committed_iff_hash_witness :
    exMarkedRow ∈ (runOps exOps).prompts
    ∧ (exMarkedRow.committed = true ↔ exMarkedRow.commit_hash.isSome = true)
    ∧ exMarkedRow ∈ (runOps (exOps ++ [EngineOp.mark "/r" "zzz"])).prompts :=
  ⟨by decide, (C2_committed_iff_hash exOps).1 exMarkedRow (by decide),
   (C2_committed_iff_hash exOps).2 [EngineOp.mark "/r" "zzz"] exMarkedRow (by decide) (by decide)⟩

/-- Recording a batch of valid inputs with fresh ids appends exactly the
recorded rows, in order. -/
theorem record_all_prompts (is : List RecordInput) :
    ∀ db : ProvDB,
      (∀ i ∈ is, i.session_id ≠ "" ∧ resolved_prompt_text i ≠ ""
        ∧ ∀ p ∈ db.prompts, p.prompt_id ≠ i.new_id) →
      (is.map (fun i => i.new_id)).Nodup →
      (record_all db is).prompts = db.prompts ++ is.map recordedRow := by
  induction is with
  | nil =>
    intro db _ _
    simp [record_all]
  | cons i rest ih =>
    intro db hvalid hnd
    obtain ⟨hsid, htext, hfresh⟩ := hvalid i (List.mem_cons_self _ _)
    have hany : (db.prompts.any fun p => p.prompt_id == i.new_id) = false := by
      rw [List.any_eq_false]
      intro p hp
      simpa using hfresh p hp
    have hp1 : (hook_record_prompt db i).prompts = db.prompts ++ [recordedRow i] := by
      unfold hook_record_prompt
      rw [if_neg (by
        intro hc
        rcases hc with hc | hc
        · exact htext hc
        · exact hsid hc)]
      unfold insert_prompt
      rw [if_neg (by rw [hany]; exact Bool.false_ne_true)]
      rfl
    have hrest : (record_all (hook_record_prompt db i) rest).prompts
        = (hook_record_prompt db i).prompts ++ rest.map recordedRow := by
      refine ih (hook_record_prompt db i) ?_ (List.Nodup.of_cons hnd)
      intro j hj
      obtain ⟨hj1, hj2, hj3⟩ := hvalid j (List.mem_cons_of_mem _ hj)
      refine ⟨hj1, hj2, ?_⟩
      intro p hp
      rw [hp1] at hp
      rcases List.mem_append.mp hp with hp | hp
      · exact hj3 p hp
      · rw [List.mem_singleton] at hp
        subst hp
        show i.new_id ≠ j.new_id
        have hni : i.new_id ∉ rest.map (fun i => i.new_id) :=
          (List.nodup_cons.mp hnd).1
        intro hc
        exact hni (hc ▸ List.mem_map_of_mem (fun i => i.new_id) hj)
    show (record_all (hook_record_prompt db i) rest).prompts = _
    rw [hrest, hp1, List.append_assoc]
    rfl

/-- C1: starting from a store with no uncommitted prompts for repo `r`,
recording `n` valid prompts for `r` (fresh ids, strictly increasing
timestamps) makes `uncommitted_prompts(r)` return exactly those `n`
rows oldest first; `mark_committed(r, h)` then returns `n`; and the
subsequent `uncommitted_prompts(r)` is empty. -/
theorem C1_record_query_commit (db : ProvDB) (r h : String) (is : List RecordInput)
    (h0 : get_uncommitted_prompts db r = [])
    (hvalid : ∀ i ∈ is, i.repo_path = r ∧ i.session_id ≠ "" ∧ resolved_prompt_text i ≠ ""
        ∧ ∀ p ∈ db.prompts, p.prompt_id ≠ i.new_id)
    (hids : (is.map (fun i => i.new_id)).Nodup)
    (hts : (is.map (fun i => i.now)).Pairwise (· < ·)) :
    get_uncommitted_prompts (record_all db is) r = is.map recordedRow
    ∧ (mark_committed (record_all db is) r h).2 = is.length
    ∧ get_uncommitted_prompts (mark_committed (record_all db is) r h).1 r = [] := by
  have hfilter0 := filter_eligible_nil_of_uncommitted_nil db r h0
  have hprompts : (record_all db is).prompts = db.prompts ++ is.map recordedRow :=
    record_all_prompts is db
      (fun i hi => ⟨(hvalid i hi).2.1, (hvalid i hi).2.2.1, (hvalid i hi).2.2.2⟩) hids
  have hfilterNew : (is.map recordedRow).filter (eligible r) = is.map recordedRow := by
    rw [List.filter_eq_self]
    intro p hp
    rcases List.mem_map.mp hp with ⟨i, hi, rfl⟩
    simp [eligible, recordedRow, (hvalid i hi).1]
  have hfilterAll : (record_all db is).prompts.filter (eligible r) = is.map recordedRow := by
    rw [hprompts, List.filter_append, hfilter0, hfilterNew, List.nil_append]
  have hsorted : (is.map recordedRow).Sorted promptLE := by
    unfold List.Sorted
    rw [List.pairwise_map]
    rw [List.pairwise_map] at hts
    exact hts.imp (fun hab => Nat.le_of_lt hab)
  refine ⟨?_, ?_, ?_⟩
  · rw [get_uncommitted_prompts, hfilterAll]
    exact hsorted.insertionSort_eq
  · simp only [mark_committed]
    rw [hfilterAll, List.length_map]
  · rw [get_uncommitted_prompts]
    simp only [mark_committed]
    rw [mark_map_eligible_nil]
    rfl

theorem C1_record_query_commit_witness :
    get_uncommitted_prompts emptyDB "/r" = []
    ∧ get_uncommitted_prompts (record_all emptyDB exRecIns) "/r" = exRecIns.map recordedRow
    ∧ (mark_committed (record_all emptyDB exRecIns) "/r" "abc123").2 = 3
    ∧ get_uncommitted_prompts (mark_committed (record_all emptyDB exRecIns) "/r" "abc123").1 "/r"
        = [] := by
  have h := C1_record_query_commit emptyDB "/r" "abc123" exRecIns (by decide) (by decide)
    (by decide) (by decide)
  exact ⟨by decide, h.1, h.2.1.trans (by decide), h.2.2⟩

/-- Everything the dedup loop emits came from its accumulator or its
input. -/
theorem dedupGo_sub (ps : List PromptRow) :
    ∀ (seen : List String) (out : List PromptRow) (q : PromptRow),
      q ∈ dedupGo seen out ps → q ∈ out ∨ q ∈ ps := by
  induction ps with
  | nil =>
    intro seen out q h
    exact Or.inl h
  | cons p ps ih =>
    intro seen out q h
    unfold dedupGo at h
    by_cases hc : (seen.contains p.prompt_id) = true
    · rw [if_pos hc] at h
      rcases ih seen out q h with h | h
      · exact Or.inl h
      · exact Or.inr (List.mem_cons_of_mem _ h)
    · rw [if_neg hc] at h
      rcases ih _ _ q h with h | h
      · rcases List.mem_append.mp h with h | h
        · exact Or.inl h
        · rw [List.mem_singleton] at h
          exact Or.inr (h ▸ List.mem_cons_self p ps)
      · exact Or.inr (List.mem_cons_of_mem _ h)

/-- The dedup loop never drops the rows already accumulated. -/
theorem dedupGo_mono (ps : List PromptRow) :
    ∀ (seen : List String) (out : List PromptRow), ∀ q ∈ out, q ∈ dedupGo seen out ps := by
  induction ps with
  | nil =>
    intro seen out q h
    exact h
  | cons p ps ih =>
    intro seen out q h
    unfold dedupGo
    by_cases hc : (seen.contains p.prompt_id) = true
    · rw [if_pos hc]
      exact ih seen out q h
    · rw [if_neg hc]
      exact ih _ _ q (List.mem_append_left _ h)

/-- Every input prompt id is represented in the dedup output. -/
theorem dedupGo_represents (ps : List PromptRow) :
    ∀ (seen : List String) (out : List PromptRow),
      seen = out.map (fun q => q.prompt_id) →
      ∀ p ∈ ps, ∃ q ∈ dedupGo seen out ps, q.prompt_id = p.prompt_id := by
  induction ps with
  | nil =>
    intro seen out _ p hp
    cases hp
  | cons a ps ih =>
    intro seen out hseen p hp
    unfold dedupGo
    by_cases hc : (seen.contains a.prompt_id) = true
    · rw [if_pos hc]
      rcases List.mem_cons.mp hp with rfl | hp
      · have hmem : p.prompt_id ∈ seen := by simpa using hc
        rw [hseen] at hmem
        rcases List.mem_map.mp hmem with ⟨q, hq, hid⟩
        exact ⟨q, dedupGo_mono ps seen out q hq, hid⟩
      · exact ih seen out hseen p hp
    · rw [if_neg hc]
      rcases List.mem_cons.mp hp with rfl | hp
      · exact ⟨p, dedupGo_mono ps _ _ p (List.mem_append_right _ (List.mem_singleton.mpr rfl)),
          rfl⟩
      · exact ih _ _ (by rw [List.map_append, ← hseen]; rfl) p hp

/-- The dedup output carries pairwise distinct prompt ids. -/
theorem dedupGo_nodup (ps : List PromptRow) :
    ∀ (seen : List String) (out : List PromptRow),
      seen = out.map (fun q => q.prompt_id) → seen.Nodup →
      ((dedupGo seen out ps).map (fun q => q.prompt_id)).Nodup := by
  induction ps with
  | nil =>
    intro seen out hseen hnd
    show (out.map (fun q => q.prompt_id)).Nodup
    rw [← hseen]
    exact hnd
  | cons a ps ih =>
    intro seen out hseen hnd
    unfold dedupGo
    by_cases hc : (seen.contains a.prompt_id) = true
    · rw [if_pos hc]
      exact ih seen out hseen hnd
    · rw [if_neg hc]
      refine ih _ _ (by rw [List.map_append, ← hseen]; rfl) ?_
      refine List.Nodup.append hnd (List.nodup_singleton _) ?_
      intro x hx hx2
      rw [List.mem_singleton] at hx2
      subst hx2
      exact hc (by simpa using hx)

/-- In a list with pairwise distinct prompt ids, a member's prompt id is
counted exactly once. -/
theorem countP_prompt_id_eq_one (l : List PromptRow) (x : PromptRow) (hm : x ∈ l)
    (hn : (l.map (fun q => q.prompt_id)).Nodup) :
    l.countP (fun y => y.prompt_id == x.prompt_id) = 1 := by
  induction l with
  | nil => cases hm
  | cons a t ih =>
    rw [List.map_cons, List.nodup_cons] at hn
    rcases List.mem_cons.mp hm with rfl | hm
    · rw [List.countP_cons]
      have hz : t.countP (fun y => y.prompt_id == x.prompt_id) = 0 := by
        rw [List.countP_eq_zero]
        intro b hb hbe
        exact hn.1 (eq_of_beq hbe ▸ List.mem_map_of_mem (fun q => q.prompt_id) hb)
      rw [hz]
      simp
    · rw [List.countP_cons]
      have hz : (if (a.prompt_id == x.prompt_id) = true then 1 else 0) = 0 := by
        rw [if_neg]
        intro hbe
        exact hn.1 (eq_of_beq hbe ▸ List.mem_map_of_mem (fun q => q.prompt_id) hm)
      rw [hz, ih hm hn.2]

/-- C9: the PR rollup merge of the three prompt sources is sorted by
timestamp, every source prompt's id appears exactly once in it, and it
contains only prompts from the sources. -/
theorem C9_pr_rollup_merge (db : ProvDB) (repo : String) (hashes : List String) :
    (pr_merged_prompts db repo hashes).Sorted promptLE
    ∧ (∀ p ∈ pr_prompt_sources db repo hashes,
        (pr_merged_prompts db repo hashes).countP (fun q => q.prompt_id == p.prompt_id) = 1)
    ∧ ∀ q ∈ pr_merged_prompts db repo hashes, q ∈ pr_prompt_sources db repo hashes := by
  have hperm :=
    List.perm_insertionSort promptLE (dedup_by_prompt_id (pr_prompt_sources db repo hashes))
  refine ⟨List.sorted_insertionSort _ _, ?_, ?_⟩
  · intro p hp
    obtain ⟨q, hq, hid⟩ := dedupGo_represents (pr_prompt_sources db repo hashes) [] [] rfl p hp
    have hnd := dedupGo_nodup (pr_prompt_sources db repo hashes) [] [] rfl List.nodup_nil
    have hcnt := countP_prompt_id_eq_one
      (dedup_by_prompt_id (pr_prompt_sources db repo hashes)) q hq hnd
    calc (pr_merged_prompts db repo hashes).countP (fun y => y.prompt_id == p.prompt_id)
        = (dedup_by_prompt_id (pr_prompt_sources db repo hashes)).countP
            (fun y => y.prompt_id == p.prompt_id) := hperm.countP_eq _
      _ = 1 := by rw [← hid]; exact hcnt
  · intro q hq
    have hq2 : q ∈ dedup_by_prompt_id (pr_prompt_sources db repo hashes) := hperm.mem_iff.mp hq
    rcases dedupGo_sub (pr_prompt_sources db repo hashes) [] [] q hq2 with h | h
    · cases h
    · exact h

theorem C9_pr_rollup_merge_witness :
    (⟨"pa", "s1", "/q", "main", "/q", "one", 1, true, some "h1"⟩ : PromptRow)
        ∈ pr_prompt_sources exC9db "/r" ["h1"]
    ∧ (pr_merged_prompts exC9db "/r" ["h1"]).countP
        (fun q => q.prompt_id ==
          (⟨"pa", "s1", "/q", "main", "/q", "one", 1, true, some "h1"⟩ : PromptRow).prompt_id)
        = 1 :=
  ⟨by decide, (C9_pr_rollup_merge exC9db "/r" ["h1"]).2.1
    ⟨"pa", "s1", "/q", "main", "/q", "one", 1, true, some "h1"⟩ (by decide)⟩

/-- A grouping step keeps every prompt already placed in some group. -/
theorem gbs_step_preserves (acc : List (String × List PromptRow)) (q p : PromptRow)
    (h : ∃ g ∈ acc, p ∈ g.2) : ∃ g ∈ gbs_step acc q, p ∈ g.2 := by
  obtain ⟨g, hg, hpg⟩ := h
  unfold gbs_step
  by_cases hany : (acc.any fun g => g.1 == q.session_id) = true
  · rw [if_pos hany]
    refine ⟨if g.1 == q.session_id then (g.1, g.2 ++ [q]) else g,
      List.mem_map_of_mem _ hg, ?_⟩
    by_cases hgq : (g.1 == q.session_id) = true
    · rw [if_pos hgq]
      exact List.mem_append_left _ hpg
    · rw [if_neg hgq]
      exact hpg
  · rw [if_neg hany]
    exact ⟨g, List.mem_append_left _ hg, hpg⟩

/-- A grouping step places the incoming prompt into some group. -/
theorem gbs_step_adds (acc : List (String × List PromptRow)) (q : PromptRow) :
    ∃ g ∈ gbs_step acc q, q ∈ g.2 := by
  unfold gbs_step
  by_cases hany : (acc.any fun g => g.1 == q.session_id) = true
  · rw [if_pos hany]
    obtain ⟨g, hg, hgq⟩ := List.any_eq_true.mp hany
    refine ⟨(g.1, g.2 ++ [q]), ?_, List.mem_append_right _ (List.mem_singleton.mpr rfl)⟩
    have : (if g.1 == q.session_id then (g.1, g.2 ++ [q]) else g) = (g.1, g.2 ++ [q]) :=
      if_pos hgq
    exact this ▸ List.mem_map_of_mem _ hg
  · rw [if_neg hany]
    exact ⟨(q.session_id, [q]), List.mem_append_right _ (List.mem_singleton.mpr rfl),
      List.mem_singleton.mpr rfl⟩

/-- Every prompt of the input ends up in some group of the grouping
fold. -/
theorem gbs_fold_mem (l : List PromptRow) :
    ∀ (acc : List (String × List PromptRow)) (p : PromptRow),
      ((∃ g ∈ acc, p ∈ g.2) ∨ p ∈ l) → ∃ g ∈ l.foldl gbs_step acc, p ∈ g.2 := by
  induction l with
  | nil =>
    intro acc p h
    rcases h with h | h
    · exact h
    · cases h
  | cons q l ih =>
    intro acc p h
    rw [List.foldl_cons]
    apply ih (gbs_step acc q)
    rcases h with h | h
    · exact Or.inl (gbs_step_preserves acc q p h)
    · rcases List.mem_cons.mp h with rfl | h
      · exact Or.inl (gbs_step_adds acc p)
      · exact Or.inr h

/-- Every prompt belongs to one of its session groups. -/
theorem groupBySession_mem (l : List PromptRow) (p : PromptRow) (hp : p ∈ l) :
    ∃ g ∈ groupBySession l, p ∈ g.2 :=
  gbs_fold_mem l [] p (Or.inr hp)

/-- The files segment of the provenance block holds only lines starting
`# Files: ` and the separator `#`. -/
theorem files_lines_mem (git_files : List String) (T : String)
    (hT2 : ∀ x, ("# Files: " ++ x) ≠ T) (hT3 : ¬ T = "#") :
    T ∉ (if git_files.isEmpty then ([] : List String)
         else if git_files.length ≤ 8 then
           ["# Files: " ++ joinWith ", " git_files, "#"]
         else
           ["# Files: " ++ (joinWith ", " (git_files.take 8) ++ " (+" ++
               toString (git_files.length - 8) ++ " more)"), "#"]) := by
  intro hT
  split at hT
  · cases hT
  · split at hT
    · rcases List.mem_cons.mp hT with h | h
      · exact hT2 _ h.symm
      · rw [List.mem_singleton] at h
        exact hT3 h
    · rcases List.mem_cons.mp hT with h | h
      · exact hT2 _ h.symm
      · rw [List.mem_singleton] at h
        exact hT3 h

/-- With at most threshold-many uncommitted prompts the block takes the
verbose branch: every prompt's (display-truncated) text appears as a
bullet line, and the condensed-mode pointer line is absent. -/
theorem provenance_lines_verbose (db : ProvDB) (repo : String) (files : List String)
    (p0 : PromptRow) (rest : List PromptRow)
    (hq : get_uncommitted_prompts db repo = p0 :: rest)
    (hle : (p0 :: rest).length ≤ 5) :
    (∀ p ∈ p0 :: rest,
        ("#   • " ++ truncate p.prompt_text 90) ∈ provenance_lines db repo 5 files)
    ∧ "# Full history: call get_session_summary in Claude" ∉ provenance_lines db repo 5 files := by
  constructor
  · intro p hp
    simp only [provenance_lines, hq]
    rw [if_pos hle]
    obtain ⟨g, hg, hpg⟩ := groupBySession_mem (p0 :: rest) p hp
    have hgsnd : g ∈ (List.enumFrom 1 (groupBySession (p0 :: rest))).map Prod.snd := by
      rw [List.enumFrom_map_snd]
      exact hg
    obtain ⟨pair, hpair, hpsnd⟩ := List.mem_map.mp hgsnd
    have hbody : ("#   • " ++ truncate p.prompt_text 90) ∈
        (List.enumFrom 1 (groupBySession (p0 :: rest))).flatMap (fun g =>
          ("# Session " ++ (toString g.1 ++ "  (" ++ fmtTs (group_started db g.2) ++
              ", id: " ++ g.2.1.take 8 ++ ", " ++ toString g.2.2.length ++ " prompt" ++
              (if g.2.2.length > 1 then "s" else "") ++ ")"))
          :: g.2.2.map (fun p => "#   • " ++ truncate p.prompt_text 90) ++ ["#"]) := by
      refine List.mem_flatMap.mpr ⟨pair, hpair, ?_⟩
      refine List.mem_cons_of_mem _ (List.mem_append_left _ ?_)
      have hpg2 : p ∈ pair.2.2 := by
        rw [hpsnd]
        exact hpg
      exact List.mem_map_of_mem _ hpg2
    simp only [List.mem_append]
    exact Or.inl (Or.inl (Or.inr hbody))
  · intro hT
    simp only [provenance_lines, hq] at hT
    rw [if_pos hle] at hT
    simp only [List.mem_append] at hT
    rcases hT with ((h | h) | h) | h
    · exact absurd h (by decide)
    · rcases List.mem_flatMap.mp h with ⟨pair, _, h2⟩
      rcases List.mem_cons.mp h2 with h3 | h3
      · exact ne_of_append_getElem "# Session " _ _ 2 (by decide) (by decide) h3.symm
      · rcases List.mem_append.mp h3 with h4 | h4
        · rcases List.mem_map.mp h4 with ⟨p, _, h5⟩
          exact ne_of_append_getElem "#   • " _ _ 2 (by decide) (by decide) h5
        · exact absurd h4 (by decide)
    · exact files_lines_mem files _
        (fun x => ne_of_append_getElem "# Files: " x _ 3 (by decide) (by decide))
        (by decide) h
    · exact absurd h (by decide)

/-- Above the threshold the block takes the condensed branch; its joined
text contains the `First:` and `Last:` markers. -/
theorem provenance_block_condensed (db : ProvDB) (repo : String) (files : List String)
    (p0 : PromptRow) (rest : List PromptRow)
    (hq : get_uncommitted_prompts db repo = p0 :: rest)
    (hgt : ¬ (p0 :: rest).length ≤ 5) :
    strContains (build_provenance_block db repo 5 files) "First:"
    ∧ strContains (build_provenance_block db repo 5 files) "Last:" := by
  have hfirst : ("# First: " ++ truncate p0.prompt_text 80) ∈ provenance_lines db repo 5 files := by
    simp only [provenance_lines, hq]
    rw [if_neg hgt]
    simp
  have hlast : ("# Last:  " ++ truncate (List.getLastD rest p0).prompt_text 80)
      ∈ provenance_lines db repo 5 files := by
    simp only [provenance_lines, hq]
    rw [if_neg hgt]
    simp
  constructor
  · exact (infix_data_append "# First: " (truncate p0.prompt_text 80) "First:"
      (by decide)).trans
      (mem_data_infix_joinWith "\n" (provenance_lines db repo 5 files) _ hfirst)
  · exact (infix_data_append "# Last:  " (truncate (List.getLastD rest p0).prompt_text 80)
      "Last:" (by decide)).trans
      (mem_data_infix_joinWith "\n" (provenance_lines db repo 5 files) _ hlast)

set_option maxRecDepth 8192 in
/-- C4 counterexample: six prompts sharing one text produce condensed
output (with the `First:`/`Last:` markers) that DOES contain all six
full prompt texts verbatim — the first/last lines render that text. -/
theorem C4_counterexample :
    (get_uncommitted_prompts exDB6same "/r").length = 6
    ∧ strContains (build_provenance_block exDB6same "/r" 5 []) "First:"
    ∧ strContains (build_provenance_block exDB6same "/r" 5 []) "Last:"
    ∧ ∀ p ∈ get_uncommitted_prompts exDB6same "/r",
        strContains (build_provenance_block exDB6same "/r" 5 []) p.prompt_text := by
  refine ⟨by decide, by decide, by decide, by decide⟩

set_option maxRecDepth 8192 in
/-- C4 amended: with threshold 5, five uncommitted prompts yield verbose
output (each prompt's display-truncated text on its own bullet line, no
condensed pointer line) and six yield condensed output containing the
`First:` and `Last:` markers; the condensed output renders only the
first and last prompts' texts, so a middle prompt's text can be absent
(witnessed concretely), though degenerate inputs may still contain all
six texts. -/
theorem C4_formatter_threshold :
    (∀ (db : ProvDB) (repo : String) (files : List String),
        (get_uncommitted_prompts db repo).length = 5 →
        (∀ p ∈ get_uncommitted_prompts db repo,
            ("#   • " ++ truncate p.prompt_text 90) ∈ provenance_lines db repo 5 files)
        ∧ "# Full history: call get_session_summary in Claude"
            ∉ provenance_lines db repo 5 files)
    ∧ (∀ (db : ProvDB) (repo : String) (files : List String),
        (get_uncommitted_prompts db repo).length = 6 →
        strContains (build_provenance_block db repo 5 files) "First:"
        ∧ strContains (build_provenance_block db repo 5 files) "Last:")
    ∧ ((get_uncommitted_prompts exDB6 "/r").map (fun p => p.prompt_text)
          = ["alpha", "bravo", "gamma", "delta", "echo", "foxtrot"]
        ∧ ¬ strContains (build_provenance_block exDB6 "/r" 5 []) "gamma") := by
  refine ⟨?_, ?_, by decide, by decide⟩
  · intro db repo files hlen
    cases hq : get_uncommitted_prompts db repo with
    | nil =>
      rw [hq] at hlen
      cases hlen
    | cons p0 rest =>
      rw [hq] at hlen
      have hres := provenance_lines_verbose db repo files p0 rest hq (le_of_eq hlen)
      refine ⟨?_, hres.2⟩
      intro p hp
      exact hres.1 p hp
  · intro db repo files hlen
    cases hq : get_uncommitted_prompts db repo with
    | nil =>
      rw [hq] at hlen
      cases hlen
    | cons p0 rest =>
      rw [hq] at hlen
      exact provenance_block_condensed db repo files p0 rest hq (by rw [hlen]; decide)

set_option maxRecDepth 8192 in
theorem C4_formatter_threshold_witness :
    (get_uncommitted_prompts exDB5 "/r").length = 5
    ∧ ("#   • " ++ truncate "gamma" 90) ∈ provenance_lines exDB5 "/r" 5 []
    ∧ (get_uncommitted_prompts exDB6 "/r").length = 6
    ∧ strContains (build_provenance_block exDB6 "/r" 5 []) "First:" :=
  ⟨by decide,
   (C4_formatter_threshold.1 exDB5 "/r" [] (by decide)).1
     ⟨"p3", "s1", "/r", "main", "/r", "gamma", 3, false, none⟩ (by decide),
   by decide,
   (C4_formatter_threshold.2.1 exDB6 "/r" [] (by decide)).1⟩
